import Mathlib

/-!
Verification of the streak-segmentation logic of `usempl_plots/usempl_streaks.py`.

The module loads the monthly PAYEMS employment level series, computes the
month-over-month gain as a first difference (`usempl_df["PAYEMS"].diff()`,
so the first observation has an undefined gain), and then a single forward
pass over the rows partitions the months with strictly positive gain into
maximal contiguous streaks, keeping per-streak running counters
(`strk_mths`, `strk_cum`), finalized aggregates (`strk_mths_tot`,
`strk_avg_emp_gain`, `strk_cum_tot`), per-streak column extrema lists, and
labels.  Afterwards the code computes global extrema of the collected
per-streak column extrema (Python `min`/`max` over the lists, which raises
`ValueError` on an empty list — modelled here with `Option`), and a render
loop that draws each streak, giving a Viridis8 palette color and a legend
entry exactly to the streaks whose maximum running cumulative gain exceeds
10,000 or whose maximum running month counter exceeds 40.

Modelling choices: calendar months are consecutive natural numbers (the
row index of the date-sorted frame), numeric values are exact rationals,
and the undefined first gain (`NaN` from `diff()`) is `Option.none`.  In
pandas, `NaN > 0` and `NaN <= 0` are both `False`, so a `none` gain takes
neither branch of the loop body, exactly like the Python code.
-/

/-- One row of the gain-annotated frame produced by `get_usempl_data`:
a month marker (`Date`, modelled as the row index), the employment level
(`PAYEMS`) and the first difference (`empl_mth_gain`, `none` for the first
row where `diff()` yields `NaN`). -/
structure Obs where
  date : Nat
  payems : ℚ
  empl_mth_gain : Option ℚ
deriving Repr, DecidableEq, Inhabited

/-- Helper for `get_usempl_data`: walks the level series carrying the
previous level (`none` before the first row) and the current row index,
emitting each observation with its first-difference gain. -/
def get_usempl_data_go (prevLevel : Option ℚ) (d : Nat) : List ℚ → List Obs
  | [] => []
  | x :: xs =>
      { date := d, payems := x,
        empl_mth_gain := prevLevel.map (fun pl => x - pl) } ::
        get_usempl_data_go (some x) (d + 1) xs

/-- Model of the data-loading stage of `get_usempl_data`: given the
date-sorted level series it returns the gain-annotated observation
sequence, where `empl_mth_gain` is the first difference of `PAYEMS`
(`usempl_df["empl_mth_gain"] = usempl_df["PAYEMS"].diff()`), undefined for
the first observation. -/
def get_usempl_data (levels : List ℚ) : List Obs :=
  get_usempl_data_go none 0 levels

/-- One row of a per-streak frame `strk_df`: the observation columns
copied from the main frame plus the running month counter `strk_mths` and
running cumulative gain `strk_cum` written by the loop. -/
structure StrkRow where
  date : Nat
  payems : ℚ
  empl_mth_gain : ℚ
  strk_mths : Nat
  strk_cum : ℚ
deriving Repr, DecidableEq, Inhabited

/-- A finalized streak: its rows plus the whole-column scalar assignments
`strk_df["strk_mths_tot"]`, `strk_df["strk_avg_emp_gain"]`,
`strk_df["strk_cum_tot"]` made when the streak is closed. -/
structure Streak where
  rows : List StrkRow
  strk_mths_tot : Nat
  strk_avg_emp_gain : ℚ
  strk_cum_tot : ℚ
deriving Repr, DecidableEq, Inhabited

/-- The local state of the segmentation loop in `usempl_streaks`
(lines 232-304): the accumulating collection lists, the streak counter and
the open-streak accumulator (`strk_mths`, `strk_cum`, the open frame
`strk_df` and its start month). -/
structure SegState where
  strk_df_lst : List Streak
  strk_label_lst : List (Nat × Nat)
  min_gain_val_lst : List ℚ
  max_gain_val_lst : List ℚ
  min_cum_val_lst : List ℚ
  max_cum_val_lst : List ℚ
  min_mth_val_lst : List Nat
  max_mth_val_lst : List Nat
  strk_num : Nat
  strk_mths : Nat
  strk_cum : ℚ
  strk_df : List StrkRow
  strk_start_mth : Nat
deriving Repr, DecidableEq, Inhabited

/-- The state before the loop: empty lists, `strk_num = strk_mths = 0`,
`strk_cum = 0`.  (`strk_df` and `strk_start_mth` are unassigned in Python
until the first streak opens; they are only ever read after an opening, so
the placeholder values are never observed.) -/
def initSegState : SegState :=
  ⟨[], [], [], [], [], [], [], [], 0, 0, 0, [], 0⟩

/-- `pandas.Series.min` on a (nonempty) column; the `0` default for an
empty column is never reached because streaks are closed with at least one
row. -/
def colMinQ : List ℚ → ℚ
  | [] => 0
  | x :: xs => xs.foldl min x

/-- `pandas.Series.max` on a (nonempty) rational column. -/
def colMaxQ : List ℚ → ℚ
  | [] => 0
  | x :: xs => xs.foldl max x

/-- `pandas.Series.min` on a (nonempty) integer column. -/
def colMinN : List Nat → Nat
  | [] => 0
  | x :: xs => xs.foldl min x

/-- `pandas.Series.max` on a (nonempty) integer column. -/
def colMaxN : List Nat → Nat
  | [] => 0
  | x :: xs => xs.foldl max x

/-- Closing a streak (both close sites of the loop): set the three total
columns from the running counters, append the label
`strk_start_mth_str + " to " + strk_end_mth_str`, append the frame and its
six column extrema to the collection lists; the `elif` close site
additionally resets `strk_mths` and `strk_cum` to `0` (`reset = true`),
the end-of-series close site does not. -/
def closeStreak (st : SegState) (endDate : Nat) (reset : Bool) : SegState :=
  { st with
    strk_df_lst := st.strk_df_lst ++
      [⟨st.strk_df, st.strk_mths, st.strk_cum / (st.strk_mths : ℚ), st.strk_cum⟩],
    strk_label_lst := st.strk_label_lst ++ [(st.strk_start_mth, endDate)],
    min_gain_val_lst := st.min_gain_val_lst ++
      [colMinQ (st.strk_df.map StrkRow.empl_mth_gain)],
    max_gain_val_lst := st.max_gain_val_lst ++
      [colMaxQ (st.strk_df.map StrkRow.empl_mth_gain)],
    min_cum_val_lst := st.min_cum_val_lst ++
      [colMinQ (st.strk_df.map StrkRow.strk_cum)],
    max_cum_val_lst := st.max_cum_val_lst ++
      [colMaxQ (st.strk_df.map StrkRow.strk_cum)],
    min_mth_val_lst := st.min_mth_val_lst ++
      [colMinN (st.strk_df.map StrkRow.strk_mths)],
    max_mth_val_lst := st.max_mth_val_lst ++
      [colMaxN (st.strk_df.map StrkRow.strk_mths)],
    strk_mths := if reset then 0 else st.strk_mths,
    strk_cum := if reset then 0 else st.strk_cum }

/-- `usempl_df.loc[i, "empl_mth_gain"] > 0` as a Boolean (false for the
`NaN` gain of the first row, as in pandas). -/
def gainPos (o : Obs) : Bool :=
  match o.empl_mth_gain with
  | some g => decide (0 < g)
  | none => false

/-- The loop body for row `i` of `usempl_streaks` (lines 244-304).
`prev` is row `i - 1` (`none` when `i = 0`) and `isLast` is
`i == usempl_df.shape[0] - 1`.  A strictly positive gain opens a streak if
none is open and appends the row with updated running counters, closing at
the end of the series; a defined non-positive gain closes the open streak
(the `elif` requires `i > 0` and a strictly positive previous gain, which
in pandas is false when the previous gain is `NaN`); an undefined gain
satisfies neither comparison and leaves the state unchanged. -/
def segStep (o : Obs) (prev : Option Obs) (isLast : Bool) (st : SegState) : SegState :=
  match o.empl_mth_gain with
  | some g =>
      if 0 < g then
        let st1 :=
          if st.strk_mths = 0 then
            { st with strk_num := st.strk_num + 1, strk_df := [],
                      strk_start_mth := o.date }
          else st
        let st2 :=
          { st1 with
            strk_mths := st1.strk_mths + 1,
            strk_cum := st1.strk_cum + g,
            strk_df := st1.strk_df ++
              [⟨o.date, o.payems, g, st1.strk_mths + 1, st1.strk_cum + g⟩] }
        if isLast then closeStreak st2 o.date false else st2
      else
        match prev with
        | some p => if gainPos p then closeStreak st p.date true else st
        | none => st
  | none => st

/-- The forward pass `for i in range(usempl_df.shape[0])` of
`usempl_streaks`, carrying the previous observation. -/
def segLoop : List Obs → Option Obs → SegState → SegState
  | [], _, st => st
  | o :: rest, prev, st => segLoop rest (some o) (segStep o prev rest.isEmpty st)

/-- The segmentation stage of `usempl_streaks` on a gain-annotated
observation sequence. -/
def usempl_streaks_seg (obs : List Obs) : SegState :=
  segLoop obs none initSegState

/-- The full data-to-collection pipeline of `usempl_streaks`: derive the
gains from the level series and run the segmentation loop. -/
def usempl_streaks_collection (levels : List ℚ) : SegState :=
  usempl_streaks_seg (get_usempl_data levels)

/-- Python `min` over a list of rationals: `none` models the `ValueError`
raised on an empty sequence. -/
def pyMinQ : List ℚ → Option ℚ
  | [] => none
  | x :: xs => some (xs.foldl min x)

/-- Python `max` over a list of rationals (`none` = `ValueError`). -/
def pyMaxQ : List ℚ → Option ℚ
  | [] => none
  | x :: xs => some (xs.foldl max x)

/-- Python `min` over a list of integers (`none` = `ValueError`). -/
def pyMinN : List Nat → Option Nat
  | [] => none
  | x :: xs => some (xs.foldl min x)

/-- Python `max` over a list of integers (`none` = `ValueError`). -/
def pyMaxN : List Nat → Option Nat
  | [] => none
  | x :: xs => some (xs.foldl max x)

/-- The global extrema computed after the loop (lines 329-332):
`min_cum_val = min(min_cum_val_lst)`, `max_cum_val = max(max_cum_val_lst)`,
`min_mth_val = min(min_mth_val_lst)`, `max_mth_val = max(max_mth_val_lst)`.
The result is `none` when any list is empty, where Python raises
`ValueError: min() arg is an empty sequence`. -/
def usempl_streaks_extrema (st : SegState) : Option (ℚ × ℚ × Nat × Nat) := do
  let a ← pyMinQ st.min_cum_val_lst
  let b ← pyMaxQ st.max_cum_val_lst
  let c ← pyMinN st.min_mth_val_lst
  let d ← pyMaxN st.max_mth_val_lst
  pure (a, b, c, d)

/-- The color given to a drawn line: a slot of the 8-element `Viridis8`
palette, or the plain `"orange"` of the `else` branch. -/
inductive LineColor where
  | viridis (slot : Nat) : LineColor
  | orange : LineColor
deriving Repr, DecidableEq

/-- What the render loop produces for one streak: the raw palette index
`7 - j` requested from `Viridis8` (`none` in the `else` branch, which uses
no palette index), the resolved color (`none` models the `IndexError`
raised when the index is out of range), and the legend entry appended to
`label_items_lst` (`none` in the `else` branch, which appends nothing). -/
structure LineSpec where
  palIdx : Option Int
  color : Option LineColor
  legend : Option (Nat × Nat)
deriving Repr, DecidableEq, Inhabited

/-- Python list indexing on the 8-element `Viridis8` palette: indices
`0..7` resolve directly, negative indices `-8..-1` wrap around to the end
of the palette, anything else raises `IndexError` (modelled as `none`). -/
def pyGet8 (idx : Int) : Option Nat :=
  if 0 ≤ idx ∧ idx < 8 then some idx.toNat
  else if -8 ≤ idx ∧ idx < 0 then some (idx + 8).toNat
  else none

/-- The highlight condition of the render loop (line 370):
`max_cum_val_lst[i] > 10_000 or max_mth_val_lst[i] > 40`. -/
def qualifies (maxCum : ℚ) (maxMth : Nat) : Bool :=
  decide (10000 < maxCum) || decide (40 < maxMth)

/-- The render loop (lines 368-393): `j` starts at `-1`; a qualifying
streak increments `j`, is drawn with `Viridis8[7 - j]` and gets a legend
entry with its label; any other streak is drawn orange with no legend
entry and leaves `j` unchanged. -/
def renderLines : List (ℚ × Nat × (Nat × Nat)) → Int → List LineSpec
  | [], _ => []
  | (mc, mm, lab) :: rest, j =>
      if qualifies mc mm then
        { palIdx := some (7 - (j + 1)),
          color := (pyGet8 (7 - (j + 1))).map LineColor.viridis,
          legend := some lab } :: renderLines rest (j + 1)
      else
        { palIdx := none, color := some LineColor.orange,
          legend := none } :: renderLines rest j

/-- Aligns the three per-streak lists indexed by the render loop
(`max_cum_val_lst[i]`, `max_mth_val_lst[i]`, `strk_label_lst[i]`). -/
def zipRender : List ℚ → List Nat → List (Nat × Nat) →
    List (ℚ × Nat × (Nat × Nat))
  | a :: as, b :: bs, c :: cs => (a, b, c) :: zipRender as bs cs
  | _, _, _ => []

/-- The render stage of `usempl_streaks` applied to a final loop state;
in every reachable final state the three lists have length `strk_num`, so
the zip traverses exactly `for i in range(strk_num)`. -/
def usempl_streaks_render (st : SegState) : List LineSpec :=
  renderLines (zipRender st.max_cum_val_lst st.max_mth_val_lst st.strk_label_lst) (-1)

/-- The legend items collected in `label_items_lst` and passed to
`Legend(items=label_items_lst, ...)` (lines 418-420). -/
def legendItems (specs : List LineSpec) : List (Nat × Nat) :=
  specs.filterMap LineSpec.legend

/-- `fig.legend.click_policy = "mute"` (line 511): legend entries are
toggle-able (clicking mutes the series). -/
def legendClickPolicy : String := "mute"

/-- Number of qualifying streaks among the render items. -/
def qcount (xs : List (ℚ × Nat × (Nat × Nat))) : Nat :=
  (xs.filter (fun x => qualifies x.1 x.2.1)).length

/-! ### Specification predicates used by the theorems -/

/-- Sum of the `empl_mth_gain` column of a streak frame. -/
def gainSum (rows : List StrkRow) : ℚ :=
  (rows.map StrkRow.empl_mth_gain).sum

/-- The rows of a streak frame are a well-formed run continuing from
month counter `m` and cumulative gain `c`: each row has strictly positive
gain, counter `m + 1` and cumulative `c +` its gain, recursively. -/
def runFrom : Nat → ℚ → List StrkRow → Prop
  | _, _, [] => True
  | m, c, r :: rs => 0 < r.empl_mth_gain ∧ r.strk_mths = m + 1 ∧
      r.strk_cum = c + r.empl_mth_gain ∧ runFrom (m + 1) (c + r.empl_mth_gain) rs

/-- A correctly finalized streak: nonempty, running columns are the
prefix counters/sums, and the three totals are the member count, the sum
of member gains, and their quotient. -/
def StreakOK (s : Streak) : Prop :=
  s.rows ≠ [] ∧ runFrom 0 0 s.rows ∧ s.strk_mths_tot = s.rows.length ∧
    s.strk_cum_tot = gainSum s.rows ∧
    s.strk_avg_emp_gain = s.strk_cum_tot / (s.strk_mths_tot : ℚ)

/-- All member dates of the closed streaks of a state, in order. -/
def memberDatesAll (st : SegState) : List Nat :=
  (st.strk_df_lst.map (fun s => s.rows.map StrkRow.date)).flatten

/-- The dates of the observations with strictly positive gain, in order. -/
def posDates (l : List Obs) : List Nat :=
  (l.filter gainPos).map Obs.date

/-- The dates held in the currently open streak frame (empty if no streak
is open). -/
def pendingDates (st : SegState) : List Nat :=
  if 0 < st.strk_mths then st.strk_df.map StrkRow.date else []

/-- The observations of `l` carry consecutive dates continuing from `p`. -/
def chainDates : Obs → List Obs → Prop
  | _, [] => True
  | p, o :: rest => p.date + 1 = o.date ∧ chainDates o rest

/-- Date of the first row of a streak frame (`0` placeholder if empty;
only used on nonempty frames). -/
def headDateD (rows : List StrkRow) : Nat :=
  match rows with
  | [] => 0
  | r :: _ => r.date

/-- Date of the last row of a streak frame. -/
def lastDateD (rows : List StrkRow) : Nat :=
  match rows.getLast? with
  | some r => r.date
  | none => 0

/-- The label a closed streak receives: its start and end month. -/
def streakLabel (s : Streak) : Nat × Nat :=
  (headDateD s.rows, lastDateD s.rows)

/-- The loop invariant of the segmentation pass, relative to the full
observation sequence `orig` and the previously processed observation `p`:
every closed streak is correctly finalized and starts right after a
non-positive-gain month; a streak is open iff the previous gain was
strictly positive; the open accumulator mirrors the open frame; and the
collection lists are the per-streak images of the closed streaks. -/
structure SegInv (orig : List Obs) (p : Obs) (st : SegState) : Prop where
  closed_ok : ∀ s ∈ st.strk_df_lst, StreakOK s
  closed_base : ∀ s ∈ st.strk_df_lst, ∀ r, s.rows.head? = some r →
      ∃ o ∈ orig, o.date + 1 = r.date ∧ gainPos o = false
  open_iff : 0 < st.strk_mths ↔ gainPos p = true
  df_run : 0 < st.strk_mths → runFrom 0 0 st.strk_df
  df_len : 0 < st.strk_mths → st.strk_mths = st.strk_df.length
  df_cum : 0 < st.strk_mths → st.strk_cum = gainSum st.strk_df
  df_ne : 0 < st.strk_mths → st.strk_df ≠ []
  df_base : 0 < st.strk_mths → ∀ r, st.strk_df.head? = some r →
      ∃ o ∈ orig, o.date + 1 = r.date ∧ gainPos o = false
  cum_zero : st.strk_mths = 0 → st.strk_cum = 0
  count_eq : st.strk_num = st.strk_df_lst.length + (if 0 < st.strk_mths then 1 else 0)
  start_eq : 0 < st.strk_mths → st.strk_start_mth = headDateD st.strk_df
  last_eq : 0 < st.strk_mths → lastDateD st.strk_df = p.date
  lab_eq : st.strk_label_lst = st.strk_df_lst.map streakLabel
  gmin_eq : st.min_gain_val_lst =
      st.strk_df_lst.map (fun s => colMinQ (s.rows.map StrkRow.empl_mth_gain))
  gmax_eq : st.max_gain_val_lst =
      st.strk_df_lst.map (fun s => colMaxQ (s.rows.map StrkRow.empl_mth_gain))
  cmin_eq : st.min_cum_val_lst =
      st.strk_df_lst.map (fun s => colMinQ (s.rows.map StrkRow.strk_cum))
  cmax_eq : st.max_cum_val_lst =
      st.strk_df_lst.map (fun s => colMaxQ (s.rows.map StrkRow.strk_cum))
  mmin_eq : st.min_mth_val_lst =
      st.strk_df_lst.map (fun s => colMinN (s.rows.map StrkRow.strk_mths))
  mmax_eq : st.max_mth_val_lst =
      st.strk_df_lst.map (fun s => colMaxN (s.rows.map StrkRow.strk_mths))

/-- What holds of the final state `fs` reached by running the loop over
the remaining observations `l` from a state `st` satisfying the
invariant. -/
structure SegPost (orig : List Obs) (st : SegState) (l : List Obs) (fs : SegState) : Prop where
  closed_ok : ∀ s ∈ fs.strk_df_lst, StreakOK s
  closed_base : ∀ s ∈ fs.strk_df_lst, ∀ r, s.rows.head? = some r →
      ∃ o ∈ orig, o.date + 1 = r.date ∧ gainPos o = false
  num_eq : l ≠ [] → fs.strk_num = fs.strk_df_lst.length
  dates_eq : memberDatesAll fs ++
      (if fs.strk_df_lst.length < fs.strk_num then fs.strk_df.map StrkRow.date else []) =
      memberDatesAll st ++ pendingDates st ++ posDates l
  lab_eq : fs.strk_label_lst = fs.strk_df_lst.map streakLabel
  gmin_eq : fs.min_gain_val_lst =
      fs.strk_df_lst.map (fun s => colMinQ (s.rows.map StrkRow.empl_mth_gain))
  gmax_eq : fs.max_gain_val_lst =
      fs.strk_df_lst.map (fun s => colMaxQ (s.rows.map StrkRow.empl_mth_gain))
  cmin_eq : fs.min_cum_val_lst =
      fs.strk_df_lst.map (fun s => colMinQ (s.rows.map StrkRow.strk_cum))
  cmax_eq : fs.max_cum_val_lst =
      fs.strk_df_lst.map (fun s => colMaxQ (s.rows.map StrkRow.strk_cum))
  mmin_eq : fs.min_mth_val_lst =
      fs.strk_df_lst.map (fun s => colMinN (s.rows.map StrkRow.strk_mths))
  mmax_eq : fs.max_mth_val_lst =
      fs.strk_df_lst.map (fun s => colMaxN (s.rows.map StrkRow.strk_mths))
  last_close : ∀ o', l.getLast? = some o' → gainPos o' = true →
      ∃ s, fs.strk_df_lst.getLast? = some s ∧ lastDateD s.rows = o'.date

/-! ### Helper lemmas -/

theorem gainSum_nil : gainSum [] = 0 := rfl

theorem gainSum_cons (r : StrkRow) (rs : List StrkRow) :
    gainSum (r :: rs) = r.empl_mth_gain + gainSum rs := by
  simp [gainSum]

theorem gainSum_append_single (rs : List StrkRow) (r : StrkRow) :
    gainSum (rs ++ [r]) = gainSum rs + r.empl_mth_gain := by
  simp [gainSum]

theorem runFrom_append_single :
    ∀ (rs : List StrkRow) (m : Nat) (c : ℚ) (r : StrkRow),
      runFrom m c rs → 0 < r.empl_mth_gain →
      r.strk_mths = m + rs.length + 1 →
      r.strk_cum = c + gainSum rs + r.empl_mth_gain →
      runFrom m c (rs ++ [r])
  | [], _, _, r, _, hg, hm, hc => by
      refine ⟨hg, by simpa using hm, by simpa [gainSum] using hc, trivial⟩
  | r0 :: rs, m, c, r, h, hg, hm, hc => by
      simp only [runFrom] at h
      obtain ⟨h1, h2, h3, h4⟩ := h
      simp only [List.cons_append, runFrom]
      refine ⟨h1, h2, h3,
        runFrom_append_single rs (m + 1) (c + r0.empl_mth_gain) r h4 hg ?_ ?_⟩
      · rw [hm]; simp [Nat.add_assoc, Nat.add_comm, Nat.add_left_comm]
      · rw [hc, gainSum_cons]; ring

theorem runFrom_get :
    ∀ (rs : List StrkRow) (m : Nat) (c : ℚ), runFrom m c rs →
      ∀ (k : Nat) (h : k < rs.length),
        (rs.get ⟨k, h⟩).strk_mths = m + k + 1 ∧
        (rs.get ⟨k, h⟩).strk_cum = c + gainSum (rs.take (k + 1))
  | r :: rs, m, c, hr, 0, h => by
      simp only [runFrom] at hr
      obtain ⟨_, h2, h3, _⟩ := hr
      exact ⟨by simpa using h2, by simpa [gainSum] using h3⟩
  | r :: rs, m, c, hr, k + 1, h => by
      simp only [runFrom] at hr
      obtain ⟨_, _, _, h4⟩ := hr
      obtain ⟨ih1, ih2⟩ :=
        runFrom_get rs (m + 1) (c + r.empl_mth_gain) h4 k (by simpa using h)
      constructor
      · simp only [List.get_cons_succ]
        rw [ih1]; omega
      · simp only [List.get_cons_succ]
        rw [ih2, List.take_succ_cons, gainSum_cons]; ring

theorem headDateD_append (rows l : List StrkRow) (h : rows ≠ []) :
    headDateD (rows ++ l) = headDateD rows := by
  cases rows with
  | nil => exact absurd rfl h
  | cons r rs => rfl

theorem lastDateD_append_single (rows : List StrkRow) (r : StrkRow) :
    lastDateD (rows ++ [r]) = r.date := by
  simp [lastDateD, List.getLast?_concat]

theorem head?_append_left {α : Type} (l l' : List α) (h : l ≠ []) :
    (l ++ l').head? = l.head? := by
  cases l with
  | nil => exact absurd rfl h
  | cons a t => rfl

theorem memberDatesAll_close (st : SegState) (e : Nat) (b : Bool) :
    memberDatesAll (closeStreak st e b) =
      memberDatesAll st ++ st.strk_df.map StrkRow.date := by
  simp [memberDatesAll, closeStreak]

theorem posDates_cons (o : Obs) (l : List Obs) :
    posDates (o :: l) = (if gainPos o then [o.date] else []) ++ posDates l := by
  by_cases h : gainPos o <;> simp [posDates, List.filter_cons, h]

/-! ### Rewriting lemmas for the loop body -/

theorem segStep_none (o : Obs) (prev : Option Obs) (b : Bool) (st : SegState)
    (h : o.empl_mth_gain = none) : segStep o prev b st = st := by
  simp [segStep, h]

theorem segStep_skip (o p : Obs) (b : Bool) (st : SegState) (g : ℚ)
    (h : o.empl_mth_gain = some g) (h0 : ¬ 0 < g) (hp : gainPos p = false) :
    segStep o (some p) b st = st := by
  simp [segStep, h, h0, hp]

theorem segStep_close (o p : Obs) (b : Bool) (st : SegState) (g : ℚ)
    (h : o.empl_mth_gain = some g) (h0 : ¬ 0 < g) (hp : gainPos p = true) :
    segStep o (some p) b st = closeStreak st p.date true := by
  simp [segStep, h, h0, hp]

theorem segStep_pos_open (o : Obs) (prev : Option Obs) (st : SegState) (g : ℚ)
    (h : o.empl_mth_gain = some g) (h0 : 0 < g) (hm : st.strk_mths = 0) :
    segStep o prev false st =
      { st with
        strk_num := st.strk_num + 1, strk_mths := 1,
        strk_cum := st.strk_cum + g,
        strk_df := [⟨o.date, o.payems, g, 1, st.strk_cum + g⟩],
        strk_start_mth := o.date } := by
  simp [segStep, h, h0, hm]

theorem segStep_pos_app (o : Obs) (prev : Option Obs) (st : SegState) (g : ℚ)
    (h : o.empl_mth_gain = some g) (h0 : 0 < g) (hm : st.strk_mths ≠ 0) :
    segStep o prev false st =
      { st with
        strk_mths := st.strk_mths + 1, strk_cum := st.strk_cum + g,
        strk_df := st.strk_df ++
          [⟨o.date, o.payems, g, st.strk_mths + 1, st.strk_cum + g⟩] } := by
  simp [segStep, h, h0, hm]

theorem segStep_last_pos (o : Obs) (prev : Option Obs) (st : SegState) (g : ℚ)
    (h : o.empl_mth_gain = some g) (h0 : 0 < g) :
    segStep o prev true st = closeStreak (segStep o prev false st) o.date false := by
  simp [segStep, h, h0]

theorem segStep_last_nonpos (o : Obs) (prev : Option Obs) (st : SegState) (g : ℚ)
    (h : o.empl_mth_gain = some g) (h0 : ¬ 0 < g) :
    segStep o prev true st = segStep o prev false st := by
  simp [segStep, h, h0]

/-! ### Invariant preservation through one loop step -/

theorem segStep_inv_skip (orig : List Obs) (o p : Obs) (st : SegState) (g : ℚ)
    (hg : o.empl_mth_gain = some g) (h0 : ¬ 0 < g) (hpf : gainPos p = false)
    (inv : SegInv orig p st) :
    SegInv orig o (segStep o (some p) false st) ∧
      memberDatesAll (segStep o (some p) false st) ++
          pendingDates (segStep o (some p) false st) =
        memberDatesAll st ++ pendingDates st ++ posDates [o] := by
  rw [segStep_skip o p false st g hg h0 hpf]
  have hm0 : st.strk_mths = 0 := by
    by_contra hne
    exact absurd (inv.open_iff.mp (Nat.pos_of_ne_zero hne)) (by simp [hpf])
  have hgf : gainPos o = false := by simp [gainPos, hg, h0]
  constructor
  · exact
      { closed_ok := inv.closed_ok, closed_base := inv.closed_base,
        open_iff := by simp [hm0, hgf],
        df_run := inv.df_run, df_len := inv.df_len, df_cum := inv.df_cum,
        df_ne := inv.df_ne, df_base := inv.df_base, cum_zero := inv.cum_zero,
        count_eq := inv.count_eq,
        start_eq := inv.start_eq,
        last_eq := fun h => absurd (hm0 ▸ h) (lt_irrefl 0),
        lab_eq := inv.lab_eq, gmin_eq := inv.gmin_eq, gmax_eq := inv.gmax_eq,
        cmin_eq := inv.cmin_eq, cmax_eq := inv.cmax_eq, mmin_eq := inv.mmin_eq,
        mmax_eq := inv.mmax_eq }
  · simp [pendingDates, hm0, posDates, hgf]

theorem segStep_inv_close (orig : List Obs) (o p : Obs) (st : SegState) (g : ℚ)
    (hg : o.empl_mth_gain = some g) (h0 : ¬ 0 < g) (hpt : gainPos p = true)
    (inv : SegInv orig p st) :
    SegInv orig o (segStep o (some p) false st) ∧
      memberDatesAll (segStep o (some p) false st) ++
          pendingDates (segStep o (some p) false st) =
        memberDatesAll st ++ pendingDates st ++ posDates [o] := by
  rw [segStep_close o p false st g hg h0 hpt]
  have hm : 0 < st.strk_mths := inv.open_iff.mpr hpt
  have hgf : gainPos o = false := by simp [gainPos, hg, h0]
  have hS : StreakOK ⟨st.strk_df, st.strk_mths,
      st.strk_cum / (st.strk_mths : ℚ), st.strk_cum⟩ :=
    ⟨inv.df_ne hm, inv.df_run hm, inv.df_len hm, inv.df_cum hm, rfl⟩
  constructor
  · refine
      { closed_ok := ?_, closed_base := ?_, open_iff := ?_, df_run := ?_,
        df_len := ?_, df_cum := ?_, df_ne := ?_, df_base := ?_, cum_zero := ?_,
        count_eq := ?_, start_eq := ?_, last_eq := ?_, lab_eq := ?_,
        gmin_eq := ?_, gmax_eq := ?_, cmin_eq := ?_, cmax_eq := ?_,
        mmin_eq := ?_, mmax_eq := ?_ }
    · intro s hs
      simp only [closeStreak, List.mem_append, List.mem_singleton] at hs
      rcases hs with hs | rfl
      · exact inv.closed_ok s hs
      · exact hS
    · intro s hs r hr
      simp only [closeStreak, List.mem_append, List.mem_singleton] at hs
      rcases hs with hs | rfl
      · exact inv.closed_base s hs r hr
      · exact inv.df_base hm r hr
    · simp [closeStreak, hgf]
    · intro h; simp [closeStreak] at h
    · intro h; simp [closeStreak] at h
    · intro h; simp [closeStreak] at h
    · intro h; simp [closeStreak] at h
    · intro h; simp [closeStreak] at h
    · simp [closeStreak]
    · have := inv.count_eq
      simp [closeStreak, this, hm]
    · intro h; simp [closeStreak] at h
    · intro h; simp [closeStreak] at h
    · simp only [closeStreak, List.map_append, List.map_cons, List.map_nil]
      rw [inv.lab_eq]
      simp [streakLabel, inv.start_eq hm, inv.last_eq hm]
    · simp only [closeStreak, List.map_append, List.map_cons, List.map_nil]
      rw [inv.gmin_eq]
    · simp only [closeStreak, List.map_append, List.map_cons, List.map_nil]
      rw [inv.gmax_eq]
    · simp only [closeStreak, List.map_append, List.map_cons, List.map_nil]
      rw [inv.cmin_eq]
    · simp only [closeStreak, List.map_append, List.map_cons, List.map_nil]
      rw [inv.cmax_eq]
    · simp only [closeStreak, List.map_append, List.map_cons, List.map_nil]
      rw [inv.mmin_eq]
    · simp only [closeStreak, List.map_append, List.map_cons, List.map_nil]
      rw [inv.mmax_eq]
  · rw [memberDatesAll_close]
    simp [pendingDates, closeStreak, hm, posDates, hgf]

theorem segStep_inv_open (orig : List Obs) (o p : Obs) (st : SegState) (g : ℚ)
    (hg : o.empl_mth_gain = some g) (h0 : 0 < g) (hm : st.strk_mths = 0)
    (hp : p ∈ orig) (hchain : p.date + 1 = o.date)
    (inv : SegInv orig p st) :
    SegInv orig o (segStep o (some p) false st) ∧
      memberDatesAll (segStep o (some p) false st) ++
          pendingDates (segStep o (some p) false st) =
        memberDatesAll st ++ pendingDates st ++ posDates [o] := by
  rw [segStep_pos_open o (some p) st g hg h0 hm]
  have hc0 : st.strk_cum = 0 := inv.cum_zero hm
  have hgt : gainPos o = true := by simp [gainPos, hg, h0]
  have hpf : gainPos p = false := by
    by_contra hne
    have hpt : gainPos p = true := by
      cases h : gainPos p with
      | false => exact absurd h hne
      | true => rfl
    have := inv.open_iff.mpr hpt
    omega
  constructor
  · refine
      { closed_ok := ?_, closed_base := ?_, open_iff := ?_, df_run := ?_,
        df_len := ?_, df_cum := ?_, df_ne := ?_, df_base := ?_, cum_zero := ?_,
        count_eq := ?_, start_eq := ?_, last_eq := ?_, lab_eq := ?_,
        gmin_eq := ?_, gmax_eq := ?_, cmin_eq := ?_, cmax_eq := ?_,
        mmin_eq := ?_, mmax_eq := ?_ }
    · simpa using inv.closed_ok
    · simpa using inv.closed_base
    · simp [hgt]
    · intro _
      exact ⟨h0, by simp, by simp [hc0], trivial⟩
    · intro _; simp
    · intro _
      simp [gainSum, hc0]
    · intro _; simp
    · intro _ r hr
      simp only [List.head?_cons, Option.some.injEq] at hr
      subst hr
      exact ⟨p, hp, hchain, hpf⟩
    · intro h; simp at h
    · have := inv.count_eq
      simp [hm] at this
      simp [this]
    · intro _
      simp [headDateD]
    · intro _
      simp [lastDateD]
    · simpa using inv.lab_eq
    · simpa using inv.gmin_eq
    · simpa using inv.gmax_eq
    · simpa using inv.cmin_eq
    · simpa using inv.cmax_eq
    · simpa using inv.mmin_eq
    · simpa using inv.mmax_eq
  · simp [memberDatesAll, pendingDates, hm, posDates, hgt]

theorem segStep_inv_app (orig : List Obs) (o p : Obs) (st : SegState) (g : ℚ)
    (hg : o.empl_mth_gain = some g) (h0 : 0 < g) (hm : st.strk_mths ≠ 0)
    (inv : SegInv orig p st) :
    SegInv orig o (segStep o (some p) false st) ∧
      memberDatesAll (segStep o (some p) false st) ++
          pendingDates (segStep o (some p) false st) =
        memberDatesAll st ++ pendingDates st ++ posDates [o] := by
  rw [segStep_pos_app o (some p) st g hg h0 hm]
  have hm' : 0 < st.strk_mths := Nat.pos_of_ne_zero hm
  have hgt : gainPos o = true := by simp [gainPos, hg, h0]
  have hdfne : st.strk_df ≠ [] := inv.df_ne hm'
  constructor
  · refine
      { closed_ok := ?_, closed_base := ?_, open_iff := ?_, df_run := ?_,
        df_len := ?_, df_cum := ?_, df_ne := ?_, df_base := ?_, cum_zero := ?_,
        count_eq := ?_, start_eq := ?_, last_eq := ?_, lab_eq := ?_,
        gmin_eq := ?_, gmax_eq := ?_, cmin_eq := ?_, cmax_eq := ?_,
        mmin_eq := ?_, mmax_eq := ?_ }
    · simpa using inv.closed_ok
    · simpa using inv.closed_base
    · simp [hgt]
    · intro _
      refine runFrom_append_single st.strk_df 0 0 _ (inv.df_run hm') h0 ?_ ?_
      · simp [← inv.df_len hm']
      · simp [← inv.df_cum hm']
    · intro _
      simp [← inv.df_len hm']
    · intro _
      simp only [SegState.strk_cum, SegState.strk_df]
      rw [gainSum_append_single, ← inv.df_cum hm']
    · intro _; simp
    · intro _ r hr
      rw [head?_append_left _ _ hdfne] at hr
      exact inv.df_base hm' r hr
    · intro h; simp at h
    · have := inv.count_eq
      simp [hm'] at this
      simp [this, hm']
    · intro _
      rw [headDateD_append _ _ hdfne]
      simpa using inv.start_eq hm'
    · intro _
      simp [lastDateD_append_single]
    · simpa using inv.lab_eq
    · simpa using inv.gmin_eq
    · simpa using inv.gmax_eq
    · simpa using inv.cmin_eq
    · simpa using inv.cmax_eq
    · simpa using inv.mmin_eq
    · simpa using inv.mmax_eq
  · simp [memberDatesAll, pendingDates, hm', posDates, hgt]

/-- One non-final loop step preserves the invariant and accounts for the
processed observation in the member dates. -/
theorem segStep_inv (orig : List Obs) (o p : Obs) (st : SegState)
    (hp : p ∈ orig) (hchain : p.date + 1 = o.date)
    (hsome : o.empl_mth_gain ≠ none)
    (inv : SegInv orig p st) :
    SegInv orig o (segStep o (some p) false st) ∧
      memberDatesAll (segStep o (some p) false st) ++
          pendingDates (segStep o (some p) false st) =
        memberDatesAll st ++ pendingDates st ++ posDates [o] := by
  obtain ⟨g, hg⟩ : ∃ g, o.empl_mth_gain = some g := by
    cases h : o.empl_mth_gain with
    | none => exact absurd h hsome
    | some g => exact ⟨g, rfl⟩
  by_cases h0 : 0 < g
  · by_cases hm : st.strk_mths = 0
    · exact segStep_inv_open orig o p st g hg h0 hm hp hchain inv
    · exact segStep_inv_app orig o p st g hg h0 hm inv
  · cases hpp : gainPos p with
    | true => exact segStep_inv_close orig o p st g hg h0 hpp inv
    | false => exact segStep_inv_skip orig o p st g hg h0 hpp inv

/-- Closing the open streak of an invariant state yields a collection in
which every streak (the new one included) is correctly finalized, every
collection list is the per-streak image, the streak counter matches the
collection size, and the member dates are the previously closed dates plus
the open frame's dates. -/
theorem closeStreak_post (orig : List Obs) (q : Obs) (st : SegState)
    (inv : SegInv orig q st) (hm : 0 < st.strk_mths) (e : Nat) (b : Bool)
    (he : lastDateD st.strk_df = e) :
    (∀ s ∈ (closeStreak st e b).strk_df_lst, StreakOK s) ∧
    (∀ s ∈ (closeStreak st e b).strk_df_lst, ∀ r, s.rows.head? = some r →
        ∃ o' ∈ orig, o'.date + 1 = r.date ∧ gainPos o' = false) ∧
    (closeStreak st e b).strk_num = (closeStreak st e b).strk_df_lst.length ∧
    memberDatesAll (closeStreak st e b) = memberDatesAll st ++ pendingDates st ∧
    (closeStreak st e b).strk_label_lst =
      (closeStreak st e b).strk_df_lst.map streakLabel ∧
    (closeStreak st e b).min_gain_val_lst =
      (closeStreak st e b).strk_df_lst.map
        (fun s => colMinQ (s.rows.map StrkRow.empl_mth_gain)) ∧
    (closeStreak st e b).max_gain_val_lst =
      (closeStreak st e b).strk_df_lst.map
        (fun s => colMaxQ (s.rows.map StrkRow.empl_mth_gain)) ∧
    (closeStreak st e b).min_cum_val_lst =
      (closeStreak st e b).strk_df_lst.map
        (fun s => colMinQ (s.rows.map StrkRow.strk_cum)) ∧
    (closeStreak st e b).max_cum_val_lst =
      (closeStreak st e b).strk_df_lst.map
        (fun s => colMaxQ (s.rows.map StrkRow.strk_cum)) ∧
    (closeStreak st e b).min_mth_val_lst =
      (closeStreak st e b).strk_df_lst.map
        (fun s => colMinN (s.rows.map StrkRow.strk_mths)) ∧
    (closeStreak st e b).max_mth_val_lst =
      (closeStreak st e b).strk_df_lst.map
        (fun s => colMaxN (s.rows.map StrkRow.strk_mths)) ∧
    (∃ s, (closeStreak st e b).strk_df_lst.getLast? = some s ∧
        lastDateD s.rows = e) := by
  have hS : StreakOK ⟨st.strk_df, st.strk_mths,
      st.strk_cum / (st.strk_mths : ℚ), st.strk_cum⟩ :=
    ⟨inv.df_ne hm, inv.df_run hm, inv.df_len hm, inv.df_cum hm, rfl⟩
  refine ⟨?_, ?_, ?_, ?_, ?_, ?_, ?_, ?_, ?_, ?_, ?_, ?_⟩
  · intro s hs
    simp only [closeStreak, List.mem_append, List.mem_singleton] at hs
    rcases hs with hs | rfl
    · exact inv.closed_ok s hs
    · exact hS
  · intro s hs r hr
    simp only [closeStreak, List.mem_append, List.mem_singleton] at hs
    rcases hs with hs | rfl
    · exact inv.closed_base s hs r hr
    · exact inv.df_base hm r hr
  · have := inv.count_eq
    simp [closeStreak, this, hm]
  · rw [memberDatesAll_close]
    simp [pendingDates, hm]
  · simp only [closeStreak, List.map_append, List.map_cons, List.map_nil]
    rw [inv.lab_eq]
    simp [streakLabel, inv.start_eq hm, he]
  · simp only [closeStreak, List.map_append, List.map_cons, List.map_nil]
    rw [inv.gmin_eq]
  · simp only [closeStreak, List.map_append, List.map_cons, List.map_nil]
    rw [inv.gmax_eq]
  · simp only [closeStreak, List.map_append, List.map_cons, List.map_nil]
    rw [inv.cmin_eq]
  · simp only [closeStreak, List.map_append, List.map_cons, List.map_nil]
    rw [inv.cmax_eq]
  · simp only [closeStreak, List.map_append, List.map_cons, List.map_nil]
    rw [inv.mmin_eq]
  · simp only [closeStreak, List.map_append, List.map_cons, List.map_nil]
    rw [inv.mmax_eq]
  · refine ⟨⟨st.strk_df, st.strk_mths,
      st.strk_cum / (st.strk_mths : ℚ), st.strk_cum⟩, ?_, he⟩
    simp [closeStreak, List.getLast?_concat]

/-- The master lemma for the segmentation pass: running the loop over the
remaining observations `l` (all with defined gains and consecutive dates,
continuing the already processed observation `p`) from any state
satisfying the invariant establishes the postcondition. -/
theorem segLoop_post (orig : List Obs) :
    ∀ (l : List Obs) (p : Obs) (st : SegState),
      (∀ o ∈ l, o.empl_mth_gain ≠ none) →
      chainDates p l →
      (∀ o ∈ l, o ∈ orig) →
      p ∈ orig →
      SegInv orig p st →
      SegPost orig st l (segLoop l (some p) st)
  | [], p, st, _, _, _, _, inv => by
      simp only [segLoop]
      refine
        { closed_ok := inv.closed_ok, closed_base := inv.closed_base,
          num_eq := fun h => absurd rfl h, dates_eq := ?_,
          lab_eq := inv.lab_eq, gmin_eq := inv.gmin_eq, gmax_eq := inv.gmax_eq,
          cmin_eq := inv.cmin_eq, cmax_eq := inv.cmax_eq,
          mmin_eq := inv.mmin_eq, mmax_eq := inv.mmax_eq,
          last_close := fun o' h => by simp at h }
      rcases Nat.eq_zero_or_pos st.strk_mths with hm | hm
      · simp [posDates, inv.count_eq, hm, pendingDates]
      · simp [posDates, inv.count_eq, hm, pendingDates]
  | [o], p, st, hsome, hchain, hsub, hp, inv => by
      have hso : o.empl_mth_gain ≠ none := hsome o (by simp)
      have hch : p.date + 1 = o.date := hchain.1
      obtain ⟨inv2, delta⟩ := segStep_inv orig o p st hp hch hso inv
      obtain ⟨g, hg⟩ : ∃ g, o.empl_mth_gain = some g := by
        cases h : o.empl_mth_gain with
        | none => exact absurd h hso
        | some g => exact ⟨g, rfl⟩
      simp only [segLoop, List.isEmpty_nil]
      by_cases h0 : 0 < g
      · have hgt : gainPos o = true := by simp [gainPos, hg, h0]
        have hm2 : 0 < (segStep o (some p) false st).strk_mths :=
          inv2.open_iff.mpr hgt
        rw [segStep_last_pos o (some p) st g hg h0]
        obtain ⟨c1, c2, c3, c4, c5, c6, c7, c8, c9, c10, c11, c12⟩ :=
          closeStreak_post orig o (segStep o (some p) false st) inv2 hm2
            o.date false (inv2.last_eq hm2)
        refine
          { closed_ok := c1, closed_base := c2, num_eq := fun _ => c3,
            dates_eq := ?_, lab_eq := c5, gmin_eq := c6, gmax_eq := c7,
            cmin_eq := c8, cmax_eq := c9, mmin_eq := c10, mmax_eq := c11,
            last_close := ?_ }
        · rw [if_neg (by rw [c3]; exact lt_irrefl _), List.append_nil, c4]
          exact delta
        · intro o' hl hga
          have ho : o = o' := by simpa using hl
          subst ho
          exact c12
      · rw [segStep_last_nonpos o (some p) st g hg h0]
        have hgf : gainPos o = false := by simp [gainPos, hg, h0]
        have hm0 : (segStep o (some p) false st).strk_mths = 0 := by
          by_contra hne
          exact absurd (inv2.open_iff.mp (Nat.pos_of_ne_zero hne))
            (by simp [hgf])
        refine
          { closed_ok := inv2.closed_ok, closed_base := inv2.closed_base,
            num_eq := fun _ => by simp [inv2.count_eq, hm0],
            dates_eq := ?_, lab_eq := inv2.lab_eq, gmin_eq := inv2.gmin_eq,
            gmax_eq := inv2.gmax_eq, cmin_eq := inv2.cmin_eq,
            cmax_eq := inv2.cmax_eq, mmin_eq := inv2.mmin_eq,
            mmax_eq := inv2.mmax_eq, last_close := ?_ }
        · rw [if_neg (by simp [inv2.count_eq, hm0]), List.append_nil]
          have hpend : pendingDates (segStep o (some p) false st) = [] := by
            simp [pendingDates, hm0]
          have h2 := delta
          rw [hpend, List.append_nil] at h2
          exact h2
        · intro o' hl hga
          have ho : o = o' := by simpa using hl
          subst ho
          rw [hgf] at hga
          cases hga
  | o :: o2 :: rest, p, st, hsome, hchain, hsub, hp, inv => by
      have hso : o.empl_mth_gain ≠ none := hsome o (by simp)
      have hch : p.date + 1 = o.date := hchain.1
      obtain ⟨inv2, delta⟩ := segStep_inv orig o p st hp hch hso inv
      have post := segLoop_post orig (o2 :: rest) o (segStep o (some p) false st)
        (fun o' h => hsome o' (List.mem_cons_of_mem _ h))
        hchain.2
        (fun o' h => hsub o' (List.mem_cons_of_mem _ h))
        (hsub o (by simp)) inv2
      simp only [segLoop, List.isEmpty_cons] at post ⊢
      refine
        { closed_ok := post.closed_ok, closed_base := post.closed_base,
          num_eq := fun _ => post.num_eq (by simp),
          dates_eq := ?_, lab_eq := post.lab_eq, gmin_eq := post.gmin_eq,
          gmax_eq := post.gmax_eq, cmin_eq := post.cmin_eq,
          cmax_eq := post.cmax_eq, mmin_eq := post.mmin_eq,
          mmax_eq := post.mmax_eq,
          last_close := fun o' hl hga =>
            post.last_close o' (by simpa using hl) hga }
      rw [post.dates_eq, delta, posDates_cons o (o2 :: rest)]
      by_cases hq : gainPos o = true
      · simp [posDates, hq, List.filter_cons]
      · have hqf : gainPos o = false := by
          cases h : gainPos o with
          | true => exact absurd h hq
          | false => rfl
        simp [posDates, hqf, List.filter_cons]

/-! ### Facts about the gain-annotated sequence -/

theorem get_usempl_data_go_some :
    ∀ (xs : List ℚ) (y : ℚ) (d : Nat),
      ∀ o ∈ get_usempl_data_go (some y) d xs, o.empl_mth_gain ≠ none
  | [], _, _ => by intro o ho; simp [get_usempl_data_go] at ho
  | x :: xs, y, d => by
      intro o ho
      simp only [get_usempl_data_go, List.mem_cons] at ho
      rcases ho with rfl | ho
      · simp
      · exact get_usempl_data_go_some xs x (d + 1) o ho

theorem get_usempl_data_go_chain :
    ∀ (xs : List ℚ) (y : ℚ) (d : Nat) (p : Obs), p.date = d →
      chainDates p (get_usempl_data_go (some y) (d + 1) xs)
  | [], _, _, _, _ => trivial
  | x :: xs, y, d, p, hpd => by
      refine ⟨by simp [hpd], ?_⟩
      exact get_usempl_data_go_chain xs x (d + 1) _ rfl

theorem get_usempl_data_go_dates :
    ∀ (xs : List ℚ) (pl : Option ℚ) (d : Nat),
      (get_usempl_data_go pl d xs).map Obs.date = List.range' d xs.length
  | [], _, _ => rfl
  | x :: xs, pl, d => by
      simp only [get_usempl_data_go, List.map_cons, List.length_cons,
        List.range'_succ]
      rw [get_usempl_data_go_dates xs (some x) (d + 1)]

/-- The dates of the observation sequence are pairwise distinct. -/
theorem get_usempl_data_dates_nodup (lv : List ℚ) :
    ((get_usempl_data lv).map Obs.date).Nodup := by
  rw [get_usempl_data, get_usempl_data_go_dates]
  exact List.nodup_range' 0 lv.length 1 Nat.one_pos

/-- Two observations of the sequence with the same date are equal. -/
theorem get_usempl_data_date_inj (lv : List ℚ) :
    ∀ o1 ∈ get_usempl_data lv, ∀ o2 ∈ get_usempl_data lv,
      o1.date = o2.date → o1 = o2 := by
  intro o1 h1 o2 h2 hd
  exact List.inj_on_of_nodup_map (get_usempl_data_dates_nodup lv) h1 h2 hd

/-- The initial loop state satisfies the invariant relative to any
already-processed observation without positive gain. -/
theorem segInv_init (orig : List Obs) (p : Obs) (hpf : gainPos p = false) :
    SegInv orig p initSegState :=
  { closed_ok := fun s hs => absurd hs (by simp [initSegState]),
    closed_base := fun s hs => absurd hs (by simp [initSegState]),
    open_iff := by simp [initSegState, hpf],
    df_run := fun h => absurd h (by simp [initSegState]),
    df_len := fun h => absurd h (by simp [initSegState]),
    df_cum := fun h => absurd h (by simp [initSegState]),
    df_ne := fun h => absurd h (by simp [initSegState]),
    df_base := fun h => absurd h (by simp [initSegState]),
    cum_zero := fun _ => rfl,
    count_eq := by simp [initSegState],
    start_eq := fun h => absurd h (by simp [initSegState]),
    last_eq := fun h => absurd h (by simp [initSegState]),
    lab_eq := rfl, gmin_eq := rfl, gmax_eq := rfl, cmin_eq := rfl,
    cmax_eq := rfl, mmin_eq := rfl, mmax_eq := rfl }

theorem collection_nil : usempl_streaks_collection [] = initSegState := rfl

theorem collection_single (x : ℚ) :
    usempl_streaks_collection [x] = initSegState := by
  show segLoop [] (some ⟨0, x, none⟩)
      (segStep ⟨0, x, none⟩ none true initSegState) = initSegState
  rw [segStep_none _ _ _ _ rfl]
  rfl

/-- On a series with at least two observations, the final state of the
loop satisfies the postcondition with respect to the full observation
sequence (the first observation has an undefined gain and is skipped). -/
theorem collection_cons_cons (x x2 : ℚ) (xs : List ℚ) :
    SegPost (get_usempl_data (x :: x2 :: xs)) initSegState
      (get_usempl_data_go (some x) 1 (x2 :: xs))
      (usempl_streaks_collection (x :: x2 :: xs)) := by
  have hunf : usempl_streaks_collection (x :: x2 :: xs) =
      segLoop (get_usempl_data_go (some x) 1 (x2 :: xs))
        (some ⟨0, x, none⟩) initSegState := by
    show segLoop (get_usempl_data_go (some x) 1 (x2 :: xs)) (some ⟨0, x, none⟩)
        (segStep ⟨0, x, none⟩ none
          (get_usempl_data_go (some x) 1 (x2 :: xs)).isEmpty initSegState) = _
    rw [segStep_none _ _ _ _ rfl]
  rw [hunf]
  exact segLoop_post (get_usempl_data (x :: x2 :: xs))
    (get_usempl_data_go (some x) 1 (x2 :: xs)) ⟨0, x, none⟩ initSegState
    (get_usempl_data_go_some (x2 :: xs) x 1)
    (get_usempl_data_go_chain (x2 :: xs) x 0 ⟨0, x, none⟩ rfl)
    (fun o h => List.mem_cons_of_mem _ h)
    (List.mem_cons_self _ _)
    (segInv_init _ _ rfl)

/-- Full characterization of the Streak Collection produced by the
segmentation pass of `usempl_streaks`, for every level series: every
streak is correctly finalized and starts right after a month without
positive gain, the streak counter equals the collection size, the member
dates are exactly the positive-gain dates, the labels are the streak date
ranges, the six extrema lists are the per-streak column extrema, and a
series ending with positive gain has its final open streak closed with the
last observation as end month. -/
theorem usempl_streaks_collection_spec (lv : List ℚ) :
    (∀ s ∈ (usempl_streaks_collection lv).strk_df_lst, StreakOK s) ∧
    (∀ s ∈ (usempl_streaks_collection lv).strk_df_lst, ∀ r,
        s.rows.head? = some r →
        ∃ o ∈ get_usempl_data lv, o.date + 1 = r.date ∧ gainPos o = false) ∧
    (usempl_streaks_collection lv).strk_num =
      (usempl_streaks_collection lv).strk_df_lst.length ∧
    memberDatesAll (usempl_streaks_collection lv) =
      posDates (get_usempl_data lv) ∧
    (usempl_streaks_collection lv).strk_label_lst =
      (usempl_streaks_collection lv).strk_df_lst.map streakLabel ∧
    (usempl_streaks_collection lv).min_gain_val_lst =
      (usempl_streaks_collection lv).strk_df_lst.map
        (fun s => colMinQ (s.rows.map StrkRow.empl_mth_gain)) ∧
    (usempl_streaks_collection lv).max_gain_val_lst =
      (usempl_streaks_collection lv).strk_df_lst.map
        (fun s => colMaxQ (s.rows.map StrkRow.empl_mth_gain)) ∧
    (usempl_streaks_collection lv).min_cum_val_lst =
      (usempl_streaks_collection lv).strk_df_lst.map
        (fun s => colMinQ (s.rows.map StrkRow.strk_cum)) ∧
    (usempl_streaks_collection lv).max_cum_val_lst =
      (usempl_streaks_collection lv).strk_df_lst.map
        (fun s => colMaxQ (s.rows.map StrkRow.strk_cum)) ∧
    (usempl_streaks_collection lv).min_mth_val_lst =
      (usempl_streaks_collection lv).strk_df_lst.map
        (fun s => colMinN (s.rows.map StrkRow.strk_mths)) ∧
    (usempl_streaks_collection lv).max_mth_val_lst =
      (usempl_streaks_collection lv).strk_df_lst.map
        (fun s => colMaxN (s.rows.map StrkRow.strk_mths)) ∧
    (∀ o', (get_usempl_data lv).getLast? = some o' → gainPos o' = true →
        ∃ s, (usempl_streaks_collection lv).strk_df_lst.getLast? = some s ∧
          lastDateD s.rows = o'.date) := by
  match lv with
  | [] =>
      rw [collection_nil]
      refine ⟨fun s hs => absurd hs (by simp [initSegState]),
        fun s hs => absurd hs (by simp [initSegState]), rfl, rfl, rfl, rfl,
        rfl, rfl, rfl, rfl, rfl, fun o' hl => ?_⟩
      simp [get_usempl_data, get_usempl_data_go] at hl
  | [x] =>
      rw [collection_single]
      refine ⟨fun s hs => absurd hs (by simp [initSegState]),
        fun s hs => absurd hs (by simp [initSegState]), rfl, ?_, rfl, rfl,
        rfl, rfl, rfl, rfl, rfl, fun o' hl hg => ?_⟩
      · show ([] : List Nat) = posDates (get_usempl_data [x])
        have : get_usempl_data [x] = [⟨0, x, none⟩] := rfl
        rw [this, posDates_cons]
        simp [gainPos, posDates]
      · have : get_usempl_data [x] = [⟨0, x, none⟩] := rfl
        rw [this] at hl
        simp at hl
        rw [← hl] at hg
        simp [gainPos] at hg
  | x :: x2 :: xs =>
      have post := collection_cons_cons x x2 xs
      have hne : get_usempl_data_go (some x) 1 (x2 :: xs) ≠ [] := by
        simp [get_usempl_data_go]
      have hnum := post.num_eq hne
      refine ⟨post.closed_ok, post.closed_base, hnum, ?_, post.lab_eq,
        post.gmin_eq, post.gmax_eq, post.cmin_eq, post.cmax_eq,
        post.mmin_eq, post.mmax_eq, ?_⟩
      · have hd := post.dates_eq
        rw [if_neg (by rw [hnum]; exact lt_irrefl _), List.append_nil] at hd
        rw [hd]
        have hm0 : memberDatesAll initSegState = [] := rfl
        have hp0 : pendingDates initSegState = [] := rfl
        rw [hm0, hp0]
        have hdata : get_usempl_data (x :: x2 :: xs) =
            (⟨0, x, none⟩ : Obs) :: get_usempl_data_go (some x) 1 (x2 :: xs) :=
          rfl
        rw [hdata, posDates_cons]
        simp [gainPos]
      · intro o' hl hg
        apply post.last_close o' _ hg
        have hdata : get_usempl_data (x :: x2 :: xs) =
            (⟨0, x, none⟩ : Obs) :: get_usempl_data_go (some x) 1 (x2 :: xs) :=
          rfl
        rw [hdata] at hl
        have hexp : get_usempl_data_go (some x) 1 (x2 :: xs) =
            (⟨1, x2, some (x2 - x)⟩ : Obs) :: get_usempl_data_go (some x2) 2 xs :=
          rfl
        rw [hexp, List.getLast?_cons_cons] at hl
        rw [hexp]
        exact hl

/-! ### Render loop lemmas -/

/-- The line spec produced for a qualifying streak with label `lab` when
the incremented counter makes the palette index `idx`. -/
def viridisSpec (lab : Nat × Nat) (idx : Int) : LineSpec :=
  { palIdx := some idx, color := (pyGet8 idx).map LineColor.viridis,
    legend := some lab }

/-- The line spec produced for a non-qualifying streak. -/
def orangeSpec : LineSpec :=
  { palIdx := none, color := some LineColor.orange, legend := none }

theorem renderLines_length :
    ∀ (xs : List (ℚ × Nat × (Nat × Nat))) (j : Int),
      (renderLines xs j).length = xs.length
  | [], _ => rfl
  | v :: rest, j => by
      by_cases hq : qualifies v.1 v.2.1
      · simp [renderLines, hq, renderLines_length rest (j + 1)]
      · simp [renderLines, hq, renderLines_length rest j]

theorem legendItems_renderLines :
    ∀ (xs : List (ℚ × Nat × (Nat × Nat))) (j : Int),
      legendItems (renderLines xs j) =
        (xs.filter (fun v => qualifies v.1 v.2.1)).map (fun v => v.2.2)
  | [], _ => rfl
  | v :: rest, j => by
      by_cases hq : qualifies v.1 v.2.1
      · simp only [renderLines, hq, if_true, legendItems, List.filterMap_cons,
          List.filter_cons]
        exact congrArg (fun l => v.2.2 :: l) (legendItems_renderLines rest (j + 1))
      · simp only [renderLines, hq, if_false, Bool.false_eq_true, legendItems,
          List.filterMap_cons, List.filter_cons]
        exact legendItems_renderLines rest j

theorem qcount_cons_pos (v : ℚ × Nat × (Nat × Nat))
    (rest : List (ℚ × Nat × (Nat × Nat))) (hq : qualifies v.1 v.2.1 = true) :
    qcount (v :: rest) = qcount rest + 1 := by
  simp [qcount, List.filter_cons, hq]

theorem qcount_cons_neg (v : ℚ × Nat × (Nat × Nat))
    (rest : List (ℚ × Nat × (Nat × Nat))) (hq : qualifies v.1 v.2.1 = false) :
    qcount (v :: rest) = qcount rest := by
  simp [qcount, List.filter_cons, hq]

/-- Elementwise description of the render loop started at counter `j`:
the `i`-th streak is drawn from the Viridis8 palette at raw index
`7 - (j + k)` (where `k` counts the qualifying streaks among the first
`i + 1`) with a legend entry iff it qualifies, and orange with no legend
entry otherwise. -/
theorem renderLines_getD :
    ∀ (xs : List (ℚ × Nat × (Nat × Nat))) (j : Int) (i : Nat), i < xs.length →
      (qualifies (xs.getD i default).1 (xs.getD i default).2.1 = true →
        (renderLines xs j).getD i default =
          viridisSpec (xs.getD i default).2.2
            (7 - (j + (qcount (xs.take (i + 1)) : Int)))) ∧
      (qualifies (xs.getD i default).1 (xs.getD i default).2.1 = false →
        (renderLines xs j).getD i default = orangeSpec)
  | [], _, i, h => absurd h (by simp)
  | v :: rest, j, 0, _ => by
      by_cases hq : qualifies v.1 v.2.1
      · constructor
        · intro _
          have hc : qcount ((v :: rest).take 1) = 1 := by
            simp [qcount, List.filter_cons, hq]
          simp only [List.getD_cons_zero, renderLines, hq, if_true, hc]
          rfl
        · intro hfalse
          rw [List.getD_cons_zero] at hfalse
          rw [hq] at hfalse
          cases hfalse
      · constructor
        · intro htrue
          rw [List.getD_cons_zero] at htrue
          simp [htrue] at hq
        · intro _
          simp only [renderLines, if_neg hq]
          rfl
  | v :: rest, j, i + 1, h => by
      have hlt : i < rest.length := by simpa using h
      by_cases hq : qualifies v.1 v.2.1
      · obtain ⟨ih1, ih2⟩ := renderLines_getD rest (j + 1) i hlt
        constructor
        · intro ht
          rw [List.getD_cons_succ] at ht ⊢
          have hcc : qcount ((v :: rest).take (i + 1 + 1)) =
              qcount (rest.take (i + 1)) + 1 := by
            rw [List.take_succ_cons]
            exact qcount_cons_pos _ _ hq
          rw [show (renderLines (v :: rest) j).getD (i + 1) default =
              (renderLines rest (j + 1)).getD i default from by
            simp [renderLines, hq]]
          rw [ih1 ht, hcc]
          have harith : 7 - ((j + 1) + (qcount (rest.take (i + 1)) : Int)) =
              7 - (j + ((qcount (rest.take (i + 1)) + 1 : Nat) : Int)) := by
            push_cast
            ring
          rw [harith]
        · intro hf
          rw [List.getD_cons_succ] at hf
          rw [show (renderLines (v :: rest) j).getD (i + 1) default =
              (renderLines rest (j + 1)).getD i default from by
            simp [renderLines, hq]]
          exact ih2 hf
      · obtain ⟨ih1, ih2⟩ := renderLines_getD rest j i hlt
        constructor
        · intro ht
          rw [List.getD_cons_succ] at ht ⊢
          have hcc : qcount ((v :: rest).take (i + 1 + 1)) =
              qcount (rest.take (i + 1)) := by
            rw [List.take_succ_cons]
            exact qcount_cons_neg _ _ (by simpa using hq)
          rw [show (renderLines (v :: rest) j).getD (i + 1) default =
              (renderLines rest j).getD i default from by
            simp [renderLines, hq]]
          rw [ih1 ht, hcc]
        · intro hf
          rw [List.getD_cons_succ] at hf
          rw [show (renderLines (v :: rest) j).getD (i + 1) default =
              (renderLines rest j).getD i default from by
            simp [renderLines, hq]]
          exact ih2 hf

/-- Among the render items there is a position at which the running count
of qualifying streaks reaches any value up to the total count. -/
theorem qcount_exists_position :
    ∀ (xs : List (ℚ × Nat × (Nat × Nat))) (m : Nat), 0 < m → m ≤ qcount xs →
      ∃ i, i < xs.length ∧
        qualifies (xs.getD i default).1 (xs.getD i default).2.1 = true ∧
        qcount (xs.take (i + 1)) = m
  | [], m, hm, hle => by
      simp [qcount] at hle
      omega
  | v :: rest, m, hm, hle => by
      by_cases hq : qualifies v.1 v.2.1
      · by_cases hm1 : m = 1
        · refine ⟨0, by simp, by simpa using hq, ?_⟩
          rw [List.take_succ_cons]
          simp only [List.take_zero]
          rw [qcount_cons_pos _ _ hq, hm1]
          rfl
        · have hle' : m - 1 ≤ qcount rest := by
            rw [qcount_cons_pos _ _ hq] at hle
            omega
          obtain ⟨i, hi, hqi, hc⟩ :=
            qcount_exists_position rest (m - 1) (by omega) hle'
          refine ⟨i + 1, by simpa using hi, by simpa using hqi, ?_⟩
          rw [List.take_succ_cons, qcount_cons_pos _ _ hq, hc]
          omega
      · have hle' : m ≤ qcount rest := by
          rwa [qcount_cons_neg _ _ (by simpa using hq)] at hle
        obtain ⟨i, hi, hqi, hc⟩ := qcount_exists_position rest m hm hle'
        refine ⟨i + 1, by simpa using hi, by simpa using hqi, ?_⟩
        rw [List.take_succ_cons, qcount_cons_neg _ _ (by simpa using hq), hc]

theorem mem_of_getLast?_eq {α : Type} {l : List α} {a : α}
    (h : l.getLast? = some a) : a ∈ l := by
  obtain ⟨hne, h2⟩ := List.mem_getLast?_eq_getLast (Option.mem_def.mpr h)
  rw [h2]
  exact List.getLast_mem hne

/-! ### Claim theorems -/

/-- Claim C1: for every level series, the member dates of the streaks of
the Streak Collection are exactly the dates with strictly positive gain
(each therefore belonging to exactly one streak, in order, and months with
non-positive or undefined gain to none); moreover the month immediately
preceding a streak's first member has non-positive (or undefined) gain and
is itself not a member of any streak. -/
theorem claim1_membership (lv : List ℚ) :
    memberDatesAll (usempl_streaks_collection lv) =
      posDates (get_usempl_data lv) ∧
    (∀ s ∈ (usempl_streaks_collection lv).strk_df_lst, ∀ r,
        s.rows.head? = some r →
        ∃ o ∈ get_usempl_data lv, o.date + 1 = r.date ∧ gainPos o = false) ∧
    (∀ s ∈ (usempl_streaks_collection lv).strk_df_lst, ∀ r,
        s.rows.head? = some r →
        ∀ o ∈ get_usempl_data lv, o.date + 1 = r.date →
          o.date ∉ memberDatesAll (usempl_streaks_collection lv)) := by
  obtain ⟨hok, hbase, _, hdates, _⟩ := usempl_streaks_collection_spec lv
  refine ⟨hdates, hbase, ?_⟩
  intro s hs r hr o ho hdate hmem
  rw [hdates] at hmem
  obtain ⟨u, hu, hud⟩ := List.mem_map.mp hmem
  obtain ⟨huin, hupos⟩ := List.mem_filter.mp hu
  obtain ⟨o', ho', hdd, hposf⟩ := hbase s hs r hr
  have huo : u = o' := by
    refine get_usempl_data_date_inj lv u huin o' ho' ?_
    omega
  rw [huo] at hupos
  rw [hposf] at hupos
  cases hupos

/-- Claim C1 witness at the gains [+5, +3, -1, +2, +2, +2]: the member
dates are months 1, 2, 4, 5, 6, and month 0 (the baseline month before
the first streak) has no positive gain and is not a member. -/
theorem claim1_membership_witness :
    memberDatesAll (usempl_streaks_collection [100, 105, 108, 107, 109, 111, 113]) =
      posDates (get_usempl_data [100, 105, 108, 107, 109, 111, 113]) ∧
    (⟨0, 100, none⟩ : Obs).date ∉
      memberDatesAll (usempl_streaks_collection [100, 105, 108, 107, 109, 111, 113]) :=
  ⟨(claim1_membership [100, 105, 108, 107, 109, 111, 113]).1,
    (claim1_membership [100, 105, 108, 107, 109, 111, 113]).2.2
      ⟨[⟨1, 105, 5, 1, 5⟩, ⟨2, 108, 3, 2, 8⟩], 2, 4, 8⟩
      (by with_unfolding_all decide)
      ⟨1, 105, 5, 1, 5⟩ (by with_unfolding_all decide)
      ⟨0, 100, none⟩ (by with_unfolding_all decide)
      (by with_unfolding_all decide)⟩

/-- Claim C2: for every streak of the Streak Collection the finalized
length equals the member count, the finalized cumulative gain equals the
exact sum of the member gains, the finalized average gain equals the
cumulative gain divided by the length, and a streak with a single member
has average gain equal to that member's gain. -/
theorem claim2_aggregates (lv : List ℚ) :
    ∀ s ∈ (usempl_streaks_collection lv).strk_df_lst,
      s.strk_mths_tot = s.rows.length ∧
      s.strk_cum_tot = gainSum s.rows ∧
      s.strk_avg_emp_gain = s.strk_cum_tot / (s.strk_mths_tot : ℚ) ∧
      (∀ r, s.rows = [r] → s.strk_avg_emp_gain = r.empl_mth_gain) := by
  intro s hs
  obtain ⟨_, _, h3, h4, h5⟩ := (usempl_streaks_collection_spec lv).1 s hs
  refine ⟨h3, h4, h5, ?_⟩
  intro r hr
  rw [h5, h4, h3, hr]
  simp [gainSum]

/-- Claim C2 witness at the single-gain series [100, 105]: the unique
streak has length 1, cumulative gain 5, average gain 5. -/
theorem claim2_aggregates_witness :
    (⟨[⟨1, 105, 5, 1, 5⟩], 1, 5, 5⟩ : Streak).strk_mths_tot =
      (⟨[⟨1, 105, 5, 1, 5⟩], 1, 5, 5⟩ : Streak).rows.length ∧
    (⟨[⟨1, 105, 5, 1, 5⟩], 1, 5, 5⟩ : Streak).strk_cum_tot =
      gainSum (⟨[⟨1, 105, 5, 1, 5⟩], 1, 5, 5⟩ : Streak).rows ∧
    (⟨[⟨1, 105, 5, 1, 5⟩], 1, 5, 5⟩ : Streak).strk_avg_emp_gain =
      (⟨[⟨1, 105, 5, 1, 5⟩], 1, 5, 5⟩ : Streak).strk_cum_tot /
        ((⟨[⟨1, 105, 5, 1, 5⟩], 1, 5, 5⟩ : Streak).strk_mths_tot : ℚ) ∧
    (∀ r, (⟨[⟨1, 105, 5, 1, 5⟩], 1, 5, 5⟩ : Streak).rows = [r] →
      (⟨[⟨1, 105, 5, 1, 5⟩], 1, 5, 5⟩ : Streak).strk_avg_emp_gain =
        r.empl_mth_gain) :=
  claim2_aggregates [100, 105] ⟨[⟨1, 105, 5, 1, 5⟩], 1, 5, 5⟩
    (by with_unfolding_all decide)

/-- Claim C9: within every streak, the k-th member (from 1) carries
running month counter k and running cumulative gain equal to the sum of
the first k member gains; the last member's running values equal the
finalized totals. -/
theorem claim9_running (lv : List ℚ) :
    ∀ s ∈ (usempl_streaks_collection lv).strk_df_lst,
      ∀ (k : Nat) (h : k < s.rows.length),
        (s.rows.get ⟨k, h⟩).strk_mths = k + 1 ∧
        (s.rows.get ⟨k, h⟩).strk_cum = gainSum (s.rows.take (k + 1)) ∧
        (k = s.rows.length - 1 →
          (s.rows.get ⟨k, h⟩).strk_mths = s.strk_mths_tot ∧
          (s.rows.get ⟨k, h⟩).strk_cum = s.strk_cum_tot) := by
  intro s hs k h
  obtain ⟨hne, hrun, hlen, hcum, _⟩ := (usempl_streaks_collection_spec lv).1 s hs
  obtain ⟨hm, hc⟩ := runFrom_get s.rows 0 0 hrun k h
  have hm' : (s.rows.get ⟨k, h⟩).strk_mths = k + 1 := by simpa using hm
  have hc' : (s.rows.get ⟨k, h⟩).strk_cum = gainSum (s.rows.take (k + 1)) := by
    simpa using hc
  refine ⟨hm', hc', ?_⟩
  intro hk
  have hpos : 0 < s.rows.length := List.length_pos.mpr hne
  constructor
  · rw [hm', hlen, hk]
    omega
  · rw [hc', hcum, hk]
    rw [show s.rows.length - 1 + 1 = s.rows.length by omega]
    rw [List.take_length]

/-- Claim C9 witness at the series [100, 105, 108]: in the unique streak
of two members, the second member has counter 2 and running cumulative
gain 8 = 5 + 3, equal to the finalized totals. -/
theorem claim9_running_witness :
    ((⟨[⟨1, 105, 5, 1, 5⟩, ⟨2, 108, 3, 2, 8⟩], 2, 4, 8⟩ : Streak).rows.get
        ⟨1, by decide⟩).strk_mths = 1 + 1 ∧
    ((⟨[⟨1, 105, 5, 1, 5⟩, ⟨2, 108, 3, 2, 8⟩], 2, 4, 8⟩ : Streak).rows.get
        ⟨1, by decide⟩).strk_cum =
      gainSum ((⟨[⟨1, 105, 5, 1, 5⟩, ⟨2, 108, 3, 2, 8⟩], 2, 4, 8⟩ :
        Streak).rows.take (1 + 1)) ∧
    (1 = (⟨[⟨1, 105, 5, 1, 5⟩, ⟨2, 108, 3, 2, 8⟩], 2, 4, 8⟩ :
        Streak).rows.length - 1 →
      ((⟨[⟨1, 105, 5, 1, 5⟩, ⟨2, 108, 3, 2, 8⟩], 2, 4, 8⟩ : Streak).rows.get
          ⟨1, by decide⟩).strk_mths =
        (⟨[⟨1, 105, 5, 1, 5⟩, ⟨2, 108, 3, 2, 8⟩], 2, 4, 8⟩ :
          Streak).strk_mths_tot ∧
      ((⟨[⟨1, 105, 5, 1, 5⟩, ⟨2, 108, 3, 2, 8⟩], 2, 4, 8⟩ : Streak).rows.get
          ⟨1, by decide⟩).strk_cum =
        (⟨[⟨1, 105, 5, 1, 5⟩, ⟨2, 108, 3, 2, 8⟩], 2, 4, 8⟩ :
          Streak).strk_cum_tot) :=
  claim9_running [100, 105, 108]
    ⟨[⟨1, 105, 5, 1, 5⟩, ⟨2, 108, 3, 2, 8⟩], 2, 4, 8⟩
    (by with_unfolding_all decide) 1 (by decide)

/-- Claim C3: the gain sequence [+5, +3, -1, +2, +2, +2] after the
baseline yields exactly two streaks, [+5, +3] (length 2, cumulative 8,
average 4) and [+2, +2, +2] (length 3, cumulative 6, average 2); the gain
sequence [-1, -1, +1] yields exactly one streak [+1] with length,
cumulative and average gain all 1. -/
theorem claim3_scenarios :
    (usempl_streaks_collection [100, 105, 108, 107, 109, 111, 113]).strk_df_lst.map
        (fun s => (s.rows.map StrkRow.empl_mth_gain, s.strk_mths_tot,
          s.strk_cum_tot, s.strk_avg_emp_gain)) =
      [([5, 3], 2, 8, 4), ([2, 2, 2], 3, 6, 2)] ∧
    (usempl_streaks_collection [100, 99, 98, 99]).strk_df_lst.map
        (fun s => (s.rows.map StrkRow.empl_mth_gain, s.strk_mths_tot,
          s.strk_cum_tot, s.strk_avg_emp_gain)) =
      [([1], 1, 1, 1)] := by
  with_unfolding_all decide

/-- Claim C4 counterexample: for the gains [+5, +3, -1, +2, +2, +2] the
global extrema computed at lines 329-332 are (2, 8, 1, 3), not the claimed
(6, 8, 2, 3): the code takes the min of the running `strk_cum` and
`strk_mths` columns (first-month cumulative gain, month counter 1), not of
the per-streak totals. -/
theorem claim4_counterexample :
    usempl_streaks_extrema
        (usempl_streaks_collection [100, 105, 108, 107, 109, 111, 113]) =
      some (2, 8, 1, 3) ∧
    usempl_streaks_extrema
        (usempl_streaks_collection [100, 105, 108, 107, 109, 111, 113]) ≠
      some (6, 8, 2, 3) := by
  with_unfolding_all decide

/-- Claim C4 (amended): after all streaks are finalized, the six
collection lists hold, for each streak across the full Streak Collection,
the min/max of its single-month gains and the min/max of its running
cumulative-gain and running month-counter columns; the four global values
are the min/max over those lists, so for gains [+5, +3, -1, +2, +2, +2]
they are min cum = 2, max cum = 8, min months = 1, max months = 3. -/
theorem claim4_amended (lv : List ℚ) :
    (usempl_streaks_collection lv).min_gain_val_lst =
      (usempl_streaks_collection lv).strk_df_lst.map
        (fun s => colMinQ (s.rows.map StrkRow.empl_mth_gain)) ∧
    (usempl_streaks_collection lv).max_gain_val_lst =
      (usempl_streaks_collection lv).strk_df_lst.map
        (fun s => colMaxQ (s.rows.map StrkRow.empl_mth_gain)) ∧
    (usempl_streaks_collection lv).min_cum_val_lst =
      (usempl_streaks_collection lv).strk_df_lst.map
        (fun s => colMinQ (s.rows.map StrkRow.strk_cum)) ∧
    (usempl_streaks_collection lv).max_cum_val_lst =
      (usempl_streaks_collection lv).strk_df_lst.map
        (fun s => colMaxQ (s.rows.map StrkRow.strk_cum)) ∧
    (usempl_streaks_collection lv).min_mth_val_lst =
      (usempl_streaks_collection lv).strk_df_lst.map
        (fun s => colMinN (s.rows.map StrkRow.strk_mths)) ∧
    (usempl_streaks_collection lv).max_mth_val_lst =
      (usempl_streaks_collection lv).strk_df_lst.map
        (fun s => colMaxN (s.rows.map StrkRow.strk_mths)) ∧
    usempl_streaks_extrema
        (usempl_streaks_collection [100, 105, 108, 107, 109, 111, 113]) =
      some (2, 8, 1, 3) := by
  obtain ⟨_, _, _, _, _, h6, h7, h8, h9, h10, h11, _⟩ :=
    usempl_streaks_collection_spec lv
  exact ⟨h6, h7, h8, h9, h10, h11, by with_unfolding_all decide⟩

/-- Claim C5: a series whose last observation has strictly positive gain
has its still-open streak closed and finalized by the same rule (every
streak of the collection, the last included, satisfies the finalization
equations, the number of opened streaks equals the number of closed ones,
and the last streak ends at the last observation's month); in particular
the gains [+1, +1, +1] yield one streak of length 3 with cumulative gain
3. -/
theorem claim5_end_close :
    (∀ (lv : List ℚ) (o : Obs),
      (get_usempl_data lv).getLast? = some o → gainPos o = true →
      (usempl_streaks_collection lv).strk_num =
        (usempl_streaks_collection lv).strk_df_lst.length ∧
      ∃ s, (usempl_streaks_collection lv).strk_df_lst.getLast? = some s ∧
        lastDateD s.rows = o.date ∧ StreakOK s) ∧
    (usempl_streaks_collection [100, 101, 102, 103]).strk_df_lst.map
        (fun s => (s.rows.map StrkRow.empl_mth_gain, s.strk_mths_tot,
          s.strk_cum_tot)) =
      [([1, 1, 1], 3, 3)] := by
  constructor
  · intro lv o hlast hpos
    obtain ⟨hok, _, hnum, _, _, _, _, _, _, _, _, hlc⟩ :=
      usempl_streaks_collection_spec lv
    obtain ⟨s, hs1, hs2⟩ := hlc o hlast hpos
    exact ⟨hnum, s, hs1, hs2, hok s (mem_of_getLast?_eq hs1)⟩
  · with_unfolding_all decide

/-- Claim C5 witness at the gains [+1, +1, +1] (series ends mid-streak):
the number of streaks equals the collection size and the last streak ends
at month 3 and is correctly finalized. -/
theorem claim5_end_close_witness :
    (usempl_streaks_collection [100, 101, 102, 103]).strk_num =
      (usempl_streaks_collection [100, 101, 102, 103]).strk_df_lst.length ∧
    ∃ s, (usempl_streaks_collection [100, 101, 102, 103]).strk_df_lst.getLast? =
        some s ∧
      lastDateD s.rows = (⟨3, 103, some 1⟩ : Obs).date ∧ StreakOK s :=
  claim5_end_close.1 [100, 101, 102, 103] ⟨3, 103, some 1⟩
    (by with_unfolding_all decide) (by with_unfolding_all decide)

/-- Claim C6: a level series with zero or one observation has no positive
gain, so the segmentation produces an empty Streak Collection; the global
extrema step then applies Python `min`/`max` to empty lists, which raises
`ValueError` (modelled by `none`) instead of completing without error. -/
theorem claim6_degenerate :
    (usempl_streaks_collection []).strk_df_lst = [] ∧
    usempl_streaks_extrema (usempl_streaks_collection []) = none ∧
    (usempl_streaks_collection [100]).strk_df_lst = [] ∧
    usempl_streaks_extrema (usempl_streaks_collection [100]) = none := by
  with_unfolding_all decide

/-- Claim C7: the segmentation is a pure function of the observation
sequence — the loop state consists only of the local accumulators modelled
in `SegState` — so two runs on the same sequence produce identical Streak
Collections (same streaks, order, labels and finalized aggregates). -/
theorem claim7_deterministic (obs1 obs2 : List Obs) (h : obs1 = obs2) :
    usempl_streaks_seg obs1 = usempl_streaks_seg obs2 := by
  rw [h]

/-- Claim C7 witness: re-running the segmentation on the observation
sequence of the series [100, 105, 104] yields the identical state. -/
theorem claim7_deterministic_witness :
    usempl_streaks_seg (get_usempl_data [100, 105, 104]) =
      usempl_streaks_seg (get_usempl_data [100, 105, 104]) :=
  claim7_deterministic (get_usempl_data [100, 105, 104])
    (get_usempl_data [100, 105, 104]) rfl

/-- Claim C8 counterexample: the series [100, 105, 108, 107] yields one
streak (max running cumulative gain 8 ≤ 10000, length 2 ≤ 40), yet the
chart's legend item list is empty — the `else` branch of the render loop
appends no legend entry, so not every streak has one. -/
theorem claim8_counterexample :
    (usempl_streaks_collection [100, 105, 108, 107]).strk_df_lst.length = 1 ∧
    legendItems (usempl_streaks_render
      (usempl_streaks_collection [100, 105, 108, 107])) = [] := by
  with_unfolding_all decide

/-- Claim C8 (amended): the chart's toggle-able (mute-on-click) legend
contains exactly one entry per streak whose maximum running cumulative
gain exceeds 10,000 or whose length exceeds 40, keyed by that streak's
date range (start month to end month); other streaks are drawn without a
legend entry. -/
theorem claim8_amended (lv : List ℚ) :
    legendItems (usempl_streaks_render (usempl_streaks_collection lv)) =
      ((zipRender (usempl_streaks_collection lv).max_cum_val_lst
          (usempl_streaks_collection lv).max_mth_val_lst
          (usempl_streaks_collection lv).strk_label_lst).filter
        (fun v => qualifies v.1 v.2.1)).map (fun v => v.2.2) ∧
    (usempl_streaks_collection lv).strk_label_lst =
      (usempl_streaks_collection lv).strk_df_lst.map streakLabel ∧
    (usempl_streaks_collection lv).max_cum_val_lst =
      (usempl_streaks_collection lv).strk_df_lst.map
        (fun s => colMaxQ (s.rows.map StrkRow.strk_cum)) ∧
    (usempl_streaks_collection lv).max_mth_val_lst =
      (usempl_streaks_collection lv).strk_df_lst.map
        (fun s => colMaxN (s.rows.map StrkRow.strk_mths)) ∧
    legendClickPolicy = "mute" := by
  obtain ⟨_, _, _, _, h5, _, _, _, h9, _, h11, _⟩ :=
    usempl_streaks_collection_spec lv
  exact ⟨legendItems_renderLines _ (-1), h5, h9, h11, rfl⟩

/-- Claim C10: in the render loop a streak is drawn from the Viridis8
palette with a legend entry iff its maximum running cumulative gain
exceeds 10,000 or its length exceeds 40 (otherwise it is orange with no
entry), the raw palette index of the k-th qualifying streak is 8 - k
(decreasing by one each time); with more than 8 qualifying streaks the
index reaches -1, which Python silently resolves to the last palette slot
(reuse), and with more than 16 the lookup `Viridis8[7 - j]` is out of
range and raises `IndexError`. -/
theorem claim10_render (xs : List (ℚ × Nat × (Nat × Nat))) :
    (∀ i, i < xs.length →
      (qualifies (xs.getD i default).1 (xs.getD i default).2.1 = true →
        (renderLines xs (-1)).getD i default =
          viridisSpec (xs.getD i default).2.2
            (8 - (qcount (xs.take (i + 1)) : Int))) ∧
      (qualifies (xs.getD i default).1 (xs.getD i default).2.1 = false →
        (renderLines xs (-1)).getD i default = orangeSpec)) ∧
    (8 < qcount xs →
      ∃ i, i < xs.length ∧
        (renderLines xs (-1)).getD i default =
          viridisSpec (xs.getD i default).2.2 (-1) ∧
        pyGet8 (-1) = some 7) ∧
    (16 < qcount xs →
      ∃ i, i < xs.length ∧
        ((renderLines xs (-1)).getD i default).color = none) := by
  have hidx : ∀ c : Nat, (7 : Int) - (-1 + (c : Int)) = 8 - (c : Int) := by
    intro c
    ring
  refine ⟨?_, ?_, ?_⟩
  · intro i hi
    obtain ⟨h1, h2⟩ := renderLines_getD xs (-1) i hi
    refine ⟨?_, h2⟩
    intro hq
    rw [h1 hq, hidx]
  · intro h8
    obtain ⟨i, hi, hq, hc⟩ := qcount_exists_position xs 9 (by omega) (by omega)
    obtain ⟨h1, _⟩ := renderLines_getD xs (-1) i hi
    refine ⟨i, hi, ?_, by decide⟩
    rw [h1 hq, hc, hidx]
    norm_num
  · intro h16
    obtain ⟨i, hi, hq, hc⟩ := qcount_exists_position xs 17 (by omega) (by omega)
    obtain ⟨h1, _⟩ := renderLines_getD xs (-1) i hi
    refine ⟨i, hi, ?_⟩
    rw [h1 hq, hc, hidx]
    have hnone : pyGet8 (-9) = none := by decide
    simp [viridisSpec, hnone]

/-- Claim C10 witness at 17 identical qualifying streaks (max cumulative
gain 20000): the first is drawn at raw index 7, the 9th forces a negative
index resolving to the palette's last slot, and some streak's lookup is
out of range (the `IndexError`). -/
theorem claim10_render_witness :
    (qualifies ((List.replicate 17 ((20000 : ℚ), 50, (0, 0))).getD 0
          default).1
        ((List.replicate 17 ((20000 : ℚ), 50, (0, 0))).getD 0 default).2.1 =
        true →
      (renderLines (List.replicate 17 ((20000 : ℚ), 50, (0, 0))) (-1)).getD 0
          default =
        viridisSpec
          ((List.replicate 17 ((20000 : ℚ), 50, (0, 0))).getD 0 default).2.2
          (8 - (qcount ((List.replicate 17 ((20000 : ℚ), 50, (0, 0))).take
            (0 + 1)) : Int))) ∧
    (8 < qcount (List.replicate 17 ((20000 : ℚ), 50, (0, 0))) →
      ∃ i, i < (List.replicate 17 ((20000 : ℚ), 50, (0, 0))).length ∧
        (renderLines (List.replicate 17 ((20000 : ℚ), 50, (0, 0))) (-1)).getD i
            default =
          viridisSpec
            ((List.replicate 17 ((20000 : ℚ), 50, (0, 0))).getD i default).2.2
            (-1) ∧
          pyGet8 (-1) = some 7) ∧
    (∃ i, i < (List.replicate 17 ((20000 : ℚ), 50, (0, 0))).length ∧
      ((renderLines (List.replicate 17 ((20000 : ℚ), 50, (0, 0))) (-1)).getD i
        default).color = none) :=
  ⟨((claim10_render (List.replicate 17 ((20000 : ℚ), 50, (0, 0)))).1 0
      (by decide)).1,
    (claim10_render (List.replicate 17 ((20000 : ℚ), 50, (0, 0)))).2.1,
    (claim10_render (List.replicate 17 ((20000 : ℚ), 50, (0, 0)))).2.2
      (by with_unfolding_all decide)⟩
